import Mathlib

/-!
Verification of the video-creation pipeline of the rdtt.fun repository.

The development shallowly embeds the string/time utilities, the hook-alignment
algorithm, the background-clip selector and the duration-budgeting block of the
two API-route implementations:
  * `pages/api/create-video.ts` (the local-render variant), and
  * the Lambda-render variant of the same route (the file with the
    window-sliding `calculateHookEndFrame`).

Modelling conventions:
  * strings are lists of characters (`Str := List Char`);
  * JS numbers are modelled as exact rationals; `NaN` is modelled by `none`
    in `JsNum := Option Rat` (every arithmetic operation propagates `none`,
    and every `<`/`>` comparison against `none` is false, as in JS);
  * a thrown JS exception (here only the `TypeError` from reading a property
    of `undefined`) is `Except.error ()`;
  * `Math.floor` on an actual number is `Int.floor` on the rational.
-/

namespace Rdtt

/-- Strings are modelled as lists of characters. -/
abbrev Str := List Char

/-- A JS number: `none` models `NaN`, `some q` an actual (exact) value. -/
abbrev JsNum := Option ℚ

/-- Whitespace characters recognised by `\s`, `trim` and friends (the ASCII
whitespace subset of the JS classes, which is all the repository ever feeds
them). -/
def isWsChar (c : Char) : Bool :=
  c = ' ' || c = '\t' || c = '\n' || c = '\r' || c = '\x0b' || c = '\x0c'

/-- The trailing-punctuation class `[.,!?;:]` used throughout the route. -/
def isPunctChar (c : Char) : Bool :=
  c = '.' || c = ',' || c = '!' || c = '?' || c = ';' || c = ':'

/-- The 26 uppercase/lowercase ASCII pairs. -/
def upperLowerPairs : List (Char × Char) :=
  [('A', 'a'), ('B', 'b'), ('C', 'c'), ('D', 'd'), ('E', 'e'), ('F', 'f'),
   ('G', 'g'), ('H', 'h'), ('I', 'i'), ('J', 'j'), ('K', 'k'), ('L', 'l'),
   ('M', 'm'), ('N', 'n'), ('O', 'o'), ('P', 'p'), ('Q', 'q'), ('R', 'r'),
   ('S', 's'), ('T', 't'), ('U', 'u'), ('V', 'v'), ('W', 'w'), ('X', 'x'),
   ('Y', 'y'), ('Z', 'z')]

/-- Lowercasing of one character, as JS toLowerCase does on the ASCII range
(the matching done by the route only ever sees ASCII). -/
def jsLowerChar (c : Char) : Char :=
  ((upperLowerPairs.find? (fun p => p.1 == c)).map Prod.snd).getD c

/-- JS toLowerCase over a whole string. -/
def asciiLower (s : Str) : Str := s.map jsLowerChar

/-- JS trim: drop leading and trailing whitespace. -/
def trim (s : Str) : Str :=
  ((s.dropWhile isWsChar).reverse.dropWhile isWsChar).reverse

/-- Model of replace(/[.,!?;:]$/, ...) with the empty string: strip a single
trailing punctuation character. -/
def stripOnePunctEnd (s : Str) : Str :=
  match s.getLast? with
  | some c => if isPunctChar c then s.dropLast else s
  | none => s

/-- Model of replace(/[.,!?;:]+$/, ...) with the empty string: strip the whole
trailing punctuation run. -/
def stripPunctRunEnd (s : Str) : Str :=
  (s.reverse.dropWhile isPunctChar).reverse

/-- Model of replace(/[.,!?;:]/g, ...) with the empty string: remove every
punctuation character. -/
def removeAllPunct (s : Str) : Str :=
  s.filter (fun c => !isPunctChar c)

/-- JS endsWith applied to a one-character slash suffix. -/
def endsWithSlash (s : Str) : Bool := s.getLast? == some '/'

/-- The maximal non-whitespace runs of a string.  On an already-trimmed
string this is exactly `split(/\s+/)` up to one empty field that the callers
filter away. -/
def wordsOfGo (cur : Str) : Str → List Str
  | [] => if cur = [] then [] else [cur.reverse]
  | c :: rest =>
    if isWsChar c then
      if cur = [] then wordsOfGo [] rest else cur.reverse :: wordsOfGo [] rest
    else wordsOfGo (c :: cur) rest

/-- See `wordsOfGo`. -/
def wordsOf (s : Str) : List Str := wordsOfGo [] s

/-- JS split for a single-character separator. -/
def jsSplitChar (sep : Char) : Str → List Str
  | [] => [[]]
  | c :: rest =>
    let r := jsSplitChar sep rest
    if c = sep then [] :: r
    else
      match r with
      | f :: rs => (c :: f) :: rs
      | [] => [[c]]

/-- The value of a decimal digit character. -/
def digitVal (c : Char) : Nat := c.toNat - 48

/-- Is `c` a decimal digit? -/
def isDigitChar (c : Char) : Bool := '0' ≤ c && c ≤ '9'

/-- The leading run of decimal digits, as a number; `none` when there is no
leading digit (JS `parseInt` then yields `NaN`). -/
def parseDigits (s : Str) : Option Nat :=
  let ds := s.takeWhile isDigitChar
  if ds = [] then none
  else some (ds.foldl (fun acc c => acc * 10 + digitVal c) 0)

/-- JS parseInt with radix 10: skip leading whitespace, read an optional sign
and the leading digit run; `none` models `NaN`. -/
def parseIntJS (s : Str) : Option ℤ :=
  match s.dropWhile isWsChar with
  | [] => none
  | c :: rest =>
    if c = '-' then (parseDigits rest).map (fun n => -(n : ℤ))
    else if c = '+' then (parseDigits rest).map (fun n => (n : ℤ))
    else (parseDigits (c :: rest)).map (fun n => (n : ℤ))

/-- NaN-propagating addition on JS numbers. -/
def jsAdd (a b : JsNum) : JsNum :=
  match a, b with
  | some x, some y => some (x + y)
  | _, _ => none

/-- NaN-propagating multiplication by a constant. -/
def jsMulC (a : JsNum) (k : ℚ) : JsNum := a.map (fun x => x * k)

/-- NaN-propagating division by a (nonzero) constant. -/
def jsDivC (a : JsNum) (k : ℚ) : JsNum := a.map (fun x => x / k)

/-- An integer `parseInt` result viewed as a JS number. -/
def jsOfInt (o : Option ℤ) : JsNum := o.map (fun z => (z : ℚ))

/--
Model of `srtTimeToSeconds`, identical in both API-route variants:

  const parts = timeString.split(':');
  const secondsAndMillis = parts[2].split(',');
  const hours = parseInt(parts[0], 10);
  const minutes = parseInt(parts[1], 10);
  const seconds = parseInt(secondsAndMillis[0], 10);
  const milliseconds = parseInt(secondsAndMillis[1], 10);
  return (hours * 3600) + (minutes * 60) + seconds + (milliseconds / 1000);

Reading `parts[2]` when fewer than three fields exist throws a `TypeError`
(modelled by `Except.error ()`); `secondsAndMillis[1]` missing instead feeds
`undefined` to `parseInt`, which yields `NaN`.
-/
def srtTimeToSeconds (timeString : Str) : Except Unit JsNum :=
  let parts := jsSplitChar ':' timeString
  match parts.get? 2 with
  | none => .error ()
  | some p2 =>
    let secondsAndMillis := jsSplitChar ',' p2
    let hours := jsOfInt (parseIntJS (parts.getD 0 []))
    let minutes := jsOfInt (parseIntJS (parts.getD 1 []))
    let seconds := jsOfInt (parseIntJS (secondsAndMillis.getD 0 []))
    let milliseconds :=
      match secondsAndMillis.get? 1 with
      | none => none
      | some m => jsOfInt (parseIntJS m)
    .ok (jsAdd (jsAdd (jsAdd (jsMulC hours 3600) (jsMulC minutes 60)) seconds)
          (jsDivC milliseconds 1000))

/-- One parsed subtitle line, as produced by the SRT parser: a stable id, the
two `HH:MM:SS,mmm` timestamp strings and the raw caption text. -/
structure SrtLine where
  id : Str
  startTime : Str
  endTime : Str
  text : Str
deriving DecidableEq, Repr

/-- Model of `normalizeWord` of the Lambda-render route:

  if (!word) return '';
  return word.trim().toLowerCase().replace(/[.,!?;:]$/, '');

(the `!word` guard coincides with the empty-string case of the pipeline). -/
def normalizeWord (word : Str) : Str :=
  stripOnePunctEnd (asciiLower (trim word))

/-- The normalized hook-word list of the Lambda-render route:

  hookText.trim().split(/\s+/).map(normalizeWord).filter(w => w.length > 0)

On the trimmed string, `split(/\s+/)` yields the maximal non-whitespace runs
(plus one empty field for the all-whitespace string, removed by the filter). -/
def hookWordsOf (hookText : Str) : List Str :=
  ((wordsOf (trim hookText)).map normalizeWord).filter (fun w => w ≠ [])

/-- The full-phrase pass of the Lambda-render route: slide a window of length
`ws.length` over the lines; at the first position where the normalized text
of every line equals the corresponding hook word, return the last line of the
window.  (The route only calls this with `ws ≠ []`.) -/
def firstWindowMatch (ws : List Str) : List SrtLine → Option SrtLine
  | [] => none
  | l :: rest =>
    if ws.length ≤ (l :: rest).length ∧
        ((l :: rest).take ws.length).map (fun x => normalizeWord x.text) = ws then
      ((l :: rest).take ws.length).getLast?
    else firstWindowMatch ws rest

/-- Frame computation floor((endTimeSeconds + hookEndDelaySeconds) * fps) for
a matched line, propagating the `TypeError`/`NaN` behaviour of `srtTimeToSeconds`. -/
def hookFrameOf (l : SrtLine) (fps delay : ℚ) : Except Unit (Option ℤ) :=
  match srtTimeToSeconds l.endTime with
  | .error e => .error e
  | .ok t => .ok (t.map (fun q => ⌊(q + delay) * fps⌋))

/--
Model of `calculateHookEndFrame` of the Lambda-render route (the window-sliding
variant): guard on empty hook text or line list; attempt 1 slides a window of
the normalized hook words over the lines (`firstWindowMatch`); attempt 2 scans
the lines from the last one downwards (`for (let i = srtLines.length - 1;
i >= 0; i--)`) for a line whose normalized text equals the last normalized
hook word; either match returns `floor((endTime + delay) * fps)`, otherwise 0.
-/
def calculateHookEndFrame (hookText : Str) (srtLines : List SrtLine)
    (fps delay : ℚ) : Except Unit (Option ℤ) :=
  if hookText = [] ∨ srtLines = [] then .ok (some 0)
  else if hookWordsOf hookText = [] then .ok (some 0)
  else
    match firstWindowMatch (hookWordsOf hookText) srtLines with
    | some l => hookFrameOf l fps delay
    | none =>
      match srtLines.reverse.find?
          (fun l => normalizeWord l.text == (hookWordsOf hookText).getLastD []) with
      | some l => hookFrameOf l fps delay
      | none => .ok (some 0)

/-! Definitions for the hook aligner variant of `create-video.ts`.  Its hook cleaning differs (`toLowerCase().trim().replace(/[.,!?;:]+$/, '')`),
its word split is on the regex literal `/\\s+/` — a literal backslash
followed by a run of `s` characters, not whitespace — and its fallback tests
a RegExp built from the source text backslash backslash b <word> backslash
backslash b, whose pattern is the literal characters
backslash, `b` around the word. -/

/-- Splitter for `split(/\\s+/)`: separators are a literal backslash followed
by a maximal nonempty run of `s` characters.  The boolean is true while the
run of `s` following a separator backslash is being consumed. -/
def bsGo (skipping : Bool) (cur : Str) : Str → List Str
  | [] => [cur.reverse]
  | c :: rest =>
    if skipping ∧ c = 's' then bsGo true cur rest
    else if c = '\\' ∧ rest.head? = some 's' then cur.reverse :: bsGo true [] rest
    else bsGo false (c :: cur) rest

/-- Model of split(/\\s+/) in `create-video.ts`. -/
def splitBsS (s : Str) : List Str := bsGo false [] s

/-- Hook cleaning of `create-video.ts`:
`hookText.toLowerCase().trim().replace(/[.,!?;:]+$/, '')`. -/
def cvCleanHook (hookText : Str) : Str :=
  stripPunctRunEnd (trim (asciiLower hookText))

/-- Line cleaning of `create-video.ts`:
`line.text.toLowerCase().trim().replace(/[.,!?;:]/g, '')`. -/
def cvCleanLine (t : Str) : Str := removeAllPunct (trim (asciiLower t))

/-- Is `c` free of special meaning in a JS regex?  The metacharacters are
backslash, the anchors, the dot, the quantifiers, the group and class
brackets and the alternation bar. -/
def regexLiteralChar (c : Char) : Bool :=
  !(['\\', '^', '$', '.', '*', '+', '?', '(', ')', '[', ']', '\x7b', '\x7d',
     '|'].contains c)

/-- The source text of the fallback RegExp: the hook word is spliced in
UNSANITIZED between backslash backslash b frames (each frame is an escaped
backslash followed by a literal b). -/
def bsWordRegexSource (w : Str) : Str :=
  '\\' :: '\\' :: 'b' :: (w ++ ['\\', '\\', 'b'])

/-- The literal string denoted by one regex alternative consisting of literal
characters and two-character escapes: a backslash escapes the following
character (in the sources built here the only escapes are the framing
backslash pairs, for which this is the JS semantics). -/
def unescapeRegexLiteral : Str → Str
  | [] => []
  | [c] => [c]
  | c :: d :: rest =>
    if c = '\\' then d :: unescapeRegexLiteral rest
    else c :: unescapeRegexLiteral (d :: rest)

/-- Semantics of `wordRegex.test(line)` for the fallback RegExp: alternation
has the lowest precedence, so the source splits on every (unescaped) bar into
alternatives, and an alternative of literal characters matches iff its
unescaped text occurs as a substring (an empty alternative matches
everything).  This models JS exactly for every word that is backslash-free
and whose only metacharacter is the bar — which covers both the
metacharacter-free words of the amended claim and the alternation
counterexample; words with other metacharacters (which can even make the
RegExp constructor throw) are outside every theorem below. -/
def wordRegexTest (w : Str) (line : Str) : Bool :=
  (jsSplitChar '|' (bsWordRegexSource w)).any
    (fun alt => decide (unescapeRegexLiteral alt <:+: line))

/-- The single alternative of the fallback RegExp for a metacharacter-free
word: a literal backslash and b on each side of the word. -/
def bsWordPattern (w : Str) : Str := '\\' :: 'b' :: (w ++ ['\\', 'b'])

/-- Frame computation floor(srtTimeToSeconds(line.endTime) * fps) of
`create-video.ts` (no delay at this point; the delay is added at the end). -/
def cvFrameOf (l : SrtLine) (fps : ℚ) : Except Unit (Option ℤ) :=
  match srtTimeToSeconds l.endTime with
  | .error e => .error e
  | .ok t => .ok (t.map (fun q => ⌊q * fps⌋))

/-- The phrase pass of `create-video.ts`: `matchedEndFrame` after the first
loop — the first line whose cleaned text contains the cleaned hook as a
substring sets it to `floor(endTime * fps)`, otherwise it stays 0. -/
def cvPhaseOne (hookText : Str) (srtLines : List SrtLine) (fps : ℚ) :
    Except Unit (Option ℤ) :=
  match srtLines.find?
      (fun l => decide (cvCleanHook hookText <:+: cvCleanLine l.text)) with
  | some l => cvFrameOf l fps
  | none => .ok (some 0)

/-- The fallback pass of `create-video.ts`: it runs only when
`matchedEndFrame === 0`, requires a truthy last hook word, and tests the
RegExp built from `bsWordRegexSource` against each cleaned line. -/
def cvPhaseTwo (hookText : Str) (srtLines : List SrtLine) (fps : ℚ)
    (m : Option ℤ) : Except Unit (Option ℤ) :=
  if m = some 0 then
    if (splitBsS (cvCleanHook hookText)).getLastD [] = [] then .ok (some 0)
    else
      match srtLines.find? (fun l =>
          wordRegexTest ((splitBsS (cvCleanHook hookText)).getLastD [])
            (cvCleanLine l.text)) with
      | some l => cvFrameOf l fps
      | none => .ok (some 0)
  else .ok m

/-- The final return of `create-video.ts`:
`matchedEndFrame > 0 ? matchedEndFrame + floor(delay * fps) : 0` (with every
comparison against `NaN` false). -/
def cvFinish (delay fps : ℚ) (m2 : Option ℤ) : Option ℤ :=
  match m2 with
  | some z => if 0 < z then some (z + ⌊delay * fps⌋) else some 0
  | none => some 0

/--
Model of `calculateHookEndFrame` of `create-video.ts`: `matchedEndFrame`
starts at 0; the phrase pass (`cvPhaseOne`) takes the first line whose
cleaned text contains the cleaned hook as a substring and sets
`matchedEndFrame = floor(endTime * fps)`; if `matchedEndFrame === 0` still,
the fallback pass (`cvPhaseTwo`) takes the first line whose cleaned text
matches the double-escaped word regex (a pattern requiring literal
backslashes).  Finally (`cvFinish`) the result is `matchedEndFrame +
floor(delay * fps)` when `matchedEndFrame > 0`, else 0 (`NaN` comparisons
are false).
-/
def calculateHookEndFrameCV (hookText : Str) (srtLines : List SrtLine)
    (fps delay : ℚ) : Except Unit (Option ℤ) :=
  if hookText = [] ∨ trim hookText = [] ∨ srtLines = [] then .ok (some 0)
  else if splitBsS (cvCleanHook hookText) = [] then .ok (some 0)
  else
    match cvPhaseOne hookText srtLines fps with
    | .error e => .error e
    | .ok m =>
      match cvPhaseTwo hookText srtLines fps m with
      | .error e => .error e
      | .ok m2 => .ok (cvFinish delay fps m2)

/-! Definitions for the background-clip selector and duration budgeting. -/

/-- One entry of an S3 `ListObjectsV2` response; `Key` may be `undefined`. -/
structure S3Object where
  Key : Option Str
deriving DecidableEq, Repr

/-- Filter predicate obj.Key && !obj.Key.endsWith(slash): the key is a truthy
(nonempty) string that does not end in a slash. -/
def keyTruthyNotDir (o : S3Object) : Bool :=
  match o.Key with
  | none => false
  | some k => k ≠ [] && !endsWithSlash k

/-- Locator of the form s3://bucket/key. -/
def s3Url (bucket key : Str) : Str :=
  's' :: '3' :: ':' :: '/' :: '/' :: (bucket ++ '/' :: key)

/--
Model of `getRandomBackgroundVideoS3` (identical in both route variants).  The listing
outcome of `s3Client.send` is a parameter: `Except.error ()` models a thrown
listing error (caught, yielding `null`), `Except.ok none` a response without
`Contents`, `Except.ok (some l)` a contents list.  `rand` models the
`Math.random()` draw (a value in `[0, 1)`); the picked index is
`Math.floor(rand * videoFiles.length)`.  The return value `none` models
`null`; the final check models `if (!randomVideoKey) return null`, whose
falsy test also catches an empty-string key.
-/
def getRandomBackgroundVideoS3 (bucket pfx : Str)
    (listing : Except Unit (Option (List S3Object))) (rand : ℚ) : Option Str :=
  match listing with
  | .error _ => none
  | .ok none => none
  | .ok (some contents) =>
    if contents = [] then none
    else
      let videoFiles := contents.filter keyTruthyNotDir
      if videoFiles = [] then none
      else
        let randomIndex := ⌊rand * (videoFiles.length : ℚ)⌋
        match (videoFiles.get? randomIndex.toNat).bind (fun o => o.Key) with
        | none => none
        | some k => if k = [] then none else some (s3Url bucket k)

/-- The `srtDurationSeconds` computation of the handler: it starts at 0 and is
only updated when an SRT file was supplied (`srtFile = some lines`), the line
list is nonempty, and the last line has a truthy `endTime`; then it is
`srtTimeToSeconds(lastSubtitle.endTime)` (which may throw). -/
def handlerSrtDuration : Option (List SrtLine) → Except Unit JsNum
  | none => .ok (some 0)
  | some lines =>
    match lines.getLast? with
    | none => .ok (some 0)
    | some l => if l.endTime = [] then .ok (some 0) else srtTimeToSeconds l.endTime

/--
The duration-priority block of the handler:

  let finalVideoDurationSeconds = 0;
  if (audioDuration > 0) { finalVideoDurationSeconds = audioDuration; }
  else if (srtDurationSeconds > 0) { finalVideoDurationSeconds = srtDurationSeconds; }
  if (finalVideoDurationSeconds <= 0) { return res.status(400).json(...); }

`.ok none` models the 400 response (duration indeterminate); `.ok (some d)`
the request proceeding with total duration `d`; `.error ()` an exception
thrown earlier while reading the last subtitle timestamp (a 500, not a 400).
A `NaN` subtitle duration fails the `> 0` test, exactly as in JS.
-/
def durationDecision (audioDuration : ℚ) (srtFile : Option (List SrtLine)) :
    Except Unit (Option ℚ) :=
  match handlerSrtDuration srtFile with
  | .error e => .error e
  | .ok srtD =>
    let srtVal : ℚ := match srtD with
      | some q => if 0 < q then q else 0
      | none => 0
    let finalVideoDurationSeconds : ℚ :=
      if 0 < audioDuration then audioDuration else srtVal
    if finalVideoDurationSeconds ≤ 0 then .ok none
    else .ok (some finalVideoDurationSeconds)

/-- Two fixed decimal digits (for rendering `HH`, `MM`, `SS`). -/
def twoDigits (n : Nat) : Str := [Nat.digitChar (n / 10), Nat.digitChar (n % 10)]

/-- Three fixed decimal digits (for rendering `mmm`). -/
def threeDigits (n : Nat) : Str :=
  [Nat.digitChar (n / 100), Nat.digitChar (n / 10 % 10), Nat.digitChar (n % 10)]

/-- A well-formed `HH:MM:SS,mmm` timestamp string. -/
def fmtTimestamp (h m s ms : Nat) : Str :=
  twoDigits h ++ ':' :: twoDigits m ++ ':' :: twoDigits s ++ ',' :: threeDigits ms

/-! Concrete fixtures used by the witnesses and counterexamples below. -/

/-- Hook text of end-to-end scenario 1 of the spec. -/
def hookThisIsWild : Str := ['T', 'h', 'i', 's', ' ', 'i', 's', ' ', 'w', 'i', 'l', 'd']

/-- Subtitle line of scenario 1 carrying the word This, 0.0 to 0.4 seconds. -/
def lineThis : SrtLine := ⟨['1'], fmtTimestamp 0 0 0 0, fmtTimestamp 0 0 0 400, ['T', 'h', 'i', 's']⟩

/-- Subtitle line of scenario 1 carrying the word is, 0.4 to 0.6 seconds. -/
def lineIs : SrtLine := ⟨['2'], fmtTimestamp 0 0 0 400, fmtTimestamp 0 0 0 600, ['i', 's']⟩

/-- Subtitle line of scenario 1 carrying the word wild, 0.6 to 1.0 seconds. -/
def lineWild : SrtLine := ⟨['3'], fmtTimestamp 0 0 0 600, fmtTimestamp 0 0 1 0, ['w', 'i', 'l', 'd']⟩

/-- The subtitle sequence of end-to-end scenario 1. -/
def scenarioLines : List SrtLine := [lineThis, lineIs, lineWild]

/-- A hook text whose full phrase never matches but whose last word is b. -/
def hookXB : Str := ['x', ' ', 'b']

/-- A line with text b ending at 1.0 seconds. -/
def lineB1 : SrtLine := ⟨['1'], fmtTimestamp 0 0 0 0, fmtTimestamp 0 0 1 0, ['b']⟩

/-- A line with text c ending at 2.0 seconds. -/
def lineC2 : SrtLine := ⟨['2'], fmtTimestamp 0 0 1 0, fmtTimestamp 0 0 2 0, ['c']⟩

/-- A second line with text b, ending at 3.0 seconds. -/
def lineB3 : SrtLine := ⟨['3'], fmtTimestamp 0 0 2 0, fmtTimestamp 0 0 3 0, ['b']⟩

/-- Lines in which the word b occurs twice, at unequal end times. -/
def linesBCB : List SrtLine := [lineB1, lineC2, lineB3]

/-- Lines in which the word b occurs exactly once. -/
def linesCB : List SrtLine := [lineC2, lineB3]

/-- A one-word hook for the create-video.ts variant. -/
def hookHi : Str := ['h', 'i']

/-- A line whose text is the hook `hookHi`, ending at 1.0 seconds. -/
def lineHi : SrtLine := ⟨['1'], fmtTimestamp 0 0 0 0, fmtTimestamp 0 0 1 0, ['h', 'i']⟩

/-- A hook word with a top-level alternation bar for the regex splice. -/
def hookPipe : Str := ['x', '|', 'y', '|', 'z']

/-- A backslash-free line matched by the alternative y of the spliced regex,
ending at 1.0 seconds. -/
def lineHey : SrtLine := ⟨['1'], fmtTimestamp 0 0 0 0, fmtTimestamp 0 0 1 0, ['h', 'e', 'y']⟩

/-- A concrete bucket name. -/
def bucketC : Str := ['b', 'k']

/-- A concrete listing path. -/
def pfxC : Str := ['p', 'x']

/-- A concrete video key (not ending in a slash). -/
def keyGood : Str := ['p', 'x', '/', 'a', '.', 'm', 'p', '4']

end Rdtt

deriving instance DecidableEq for Except


namespace Rdtt

/-- Everything needed about a decimal digit character. -/
theorem digitChar_facts (d : Nat) (hd : d < 10) :
    isDigitChar (Nat.digitChar d) = true ∧ isWsChar (Nat.digitChar d) = false ∧
    Nat.digitChar d ≠ ':' ∧ Nat.digitChar d ≠ ',' ∧ Nat.digitChar d ≠ '-' ∧
    Nat.digitChar d ≠ '+' ∧ digitVal (Nat.digitChar d) = d := by
  interval_cases d <;> decide

/-- A JS split never produces an empty field list. -/
theorem jsSplitChar_ne_nil (sep : Char) (s : Str) : jsSplitChar sep s ≠ [] := by
  cases s with
  | nil => simp [jsSplitChar]
  | cons c rest =>
    simp only [jsSplitChar]
    split
    · simp
    · split <;> simp

/-- Splitting a string that starts with the separator. -/
theorem jsSplitChar_sep_cons (sep : Char) (t : Str) :
    jsSplitChar sep (sep :: t) = [] :: jsSplitChar sep t := by
  simp [jsSplitChar]

/-- Splitting with a separator-free chunk in front extends the first field. -/
theorem jsSplitChar_append_no_sep (sep : Char) (s1 : Str) (h : ∀ c ∈ s1, c ≠ sep)
    (t f : Str) (rs : List Str) (ht : jsSplitChar sep t = f :: rs) :
    jsSplitChar sep (s1 ++ t) = (s1 ++ f) :: rs := by
  induction s1 with
  | nil => simpa using ht
  | cons c s1 ih =>
    have hc : c ≠ sep := h c (List.mem_cons_self c s1)
    have ih' := ih (fun x hx => h x (List.mem_cons_of_mem _ hx))
    show jsSplitChar sep (c :: (s1 ++ t)) = _
    rw [jsSplitChar, if_neg hc, ih']
    rfl

/-- Splitting a separator-free string yields a single field. -/
theorem jsSplitChar_no_sep (sep : Char) (s : Str) (h : ∀ c ∈ s, c ≠ sep) :
    jsSplitChar sep s = [s] := by
  have := jsSplitChar_append_no_sep sep s h [] [] [] (by simp [jsSplitChar])
  simpa using this

/-- There is no colon in a two-digit chunk. -/
theorem twoDigits_ne (n : Nat) (hn : n < 100) (x : Char) (hx : x = ':' ∨ x = ',') :
    ∀ c ∈ twoDigits n, c ≠ x := by
  intro c hc
  have h1 := digitChar_facts (n / 10) (by omega)
  have h2 := digitChar_facts (n % 10) (by omega)
  rcases hx with rfl | rfl <;>
    (simp only [twoDigits, List.mem_cons, List.not_mem_nil, or_false] at hc;
     rcases hc with rfl | rfl <;> tauto)

/-- There is no colon in a three-digit chunk. -/
theorem threeDigits_ne (n : Nat) (hn : n < 1000) (x : Char) (hx : x = ':' ∨ x = ',') :
    ∀ c ∈ threeDigits n, c ≠ x := by
  intro c hc
  have h1 := digitChar_facts (n / 100) (by omega)
  have h2 := digitChar_facts (n / 10 % 10) (by omega)
  have h3 := digitChar_facts (n % 10) (by omega)
  rcases hx with rfl | rfl <;>
    (simp only [threeDigits, List.mem_cons, List.not_mem_nil, or_false] at hc;
     rcases hc with rfl | rfl | rfl <;> tauto)

/-- Splitting a well-formed timestamp on the colon yields its three fields. -/
theorem jsSplit_colon_fmt (h m s ms : Nat) (hh : h < 100) (hm : m < 100)
    (hs : s < 100) (hms : ms < 1000) :
    jsSplitChar ':' (fmtTimestamp h m s ms) =
      [twoDigits h, twoDigits m, twoDigits s ++ ',' :: threeDigits ms] := by
  have hC : ∀ c ∈ twoDigits s ++ ',' :: threeDigits ms, c ≠ ':' := by
    intro c hc
    rcases List.mem_append.mp hc with h1 | h1
    · exact twoDigits_ne s hs ':' (Or.inl rfl) c h1
    · rcases List.mem_cons.mp h1 with rfl | h2
      · decide
      · exact threeDigits_ne ms hms ':' (Or.inl rfl) c h2
  have e1 : jsSplitChar ':' (twoDigits s ++ ',' :: threeDigits ms) =
      [twoDigits s ++ ',' :: threeDigits ms] := jsSplitChar_no_sep _ _ hC
  have e2 : jsSplitChar ':' (':' :: (twoDigits s ++ ',' :: threeDigits ms)) =
      [] :: [twoDigits s ++ ',' :: threeDigits ms] := by
    rw [jsSplitChar_sep_cons, e1]
  have e3 : jsSplitChar ':' (twoDigits m ++ ':' :: (twoDigits s ++ ',' :: threeDigits ms)) =
      (twoDigits m ++ []) :: [twoDigits s ++ ',' :: threeDigits ms] :=
    jsSplitChar_append_no_sep ':' _ (twoDigits_ne m hm ':' (Or.inl rfl)) _ _ _ e2
  have e4 : jsSplitChar ':'
      (':' :: (twoDigits m ++ ':' :: (twoDigits s ++ ',' :: threeDigits ms))) =
      [] :: ((twoDigits m ++ []) :: [twoDigits s ++ ',' :: threeDigits ms]) := by
    rw [jsSplitChar_sep_cons, e3]
  have e5 := jsSplitChar_append_no_sep ':' (twoDigits h)
    (twoDigits_ne h hh ':' (Or.inl rfl)) _ _ _ e4
  simpa [fmtTimestamp] using e5

/-- Parsing a two-digit chunk recovers the value. -/
theorem parseIntJS_twoDigits (n : Nat) (hn : n < 100) :
    parseIntJS (twoDigits n) = some (n : ℤ) := by
  have h1 := digitChar_facts (n / 10) (by omega)
  have h2 := digitChar_facts (n % 10) (by omega)
  have hdrop : (twoDigits n).dropWhile isWsChar = twoDigits n := by
    rw [twoDigits, List.dropWhile_cons, if_neg (by simp [h1.2.1])]
  have htake : (twoDigits n).takeWhile isDigitChar = twoDigits n := by
    simp [twoDigits, List.takeWhile_cons, h1.1, h2.1]
  simp only [twoDigits] at hdrop ⊢
  simp only [parseIntJS, hdrop]
  rw [if_neg h1.2.2.2.2.1, if_neg h1.2.2.2.2.2.1]
  simp only [parseDigits, List.takeWhile_cons, h1.1, h2.1, if_true, List.takeWhile_nil]
  rw [if_neg (by simp)]
  simp only [List.foldl_cons, List.foldl_nil]
  simp [h1.2.2.2.2.2.2, h2.2.2.2.2.2.2]
  omega

/-- Parsing a three-digit chunk recovers the value. -/
theorem parseIntJS_threeDigits (n : Nat) (hn : n < 1000) :
    parseIntJS (threeDigits n) = some (n : ℤ) := by
  have h1 := digitChar_facts (n / 100) (by omega)
  have h2 := digitChar_facts (n / 10 % 10) (by omega)
  have h3 := digitChar_facts (n % 10) (by omega)
  have hdrop : (threeDigits n).dropWhile isWsChar = threeDigits n := by
    rw [threeDigits, List.dropWhile_cons, if_neg (by simp [h1.2.1])]
  have htake : (threeDigits n).takeWhile isDigitChar = threeDigits n := by
    simp [threeDigits, List.takeWhile_cons, h1.1, h2.1, h3.1]
  simp only [threeDigits] at hdrop ⊢
  simp only [parseIntJS, hdrop]
  rw [if_neg h1.2.2.2.2.1, if_neg h1.2.2.2.2.2.1]
  simp only [parseDigits, List.takeWhile_cons, h1.1, h2.1, h3.1, if_true,
    List.takeWhile_nil]
  rw [if_neg (by simp)]
  simp only [List.foldl_cons, List.foldl_nil]
  simp [h1.2.2.2.2.2.2, h2.2.2.2.2.2.2, h3.2.2.2.2.2.2]
  omega

/-- Evaluation of `srtTimeToSeconds` on every well-formed timestamp. -/
theorem srtTimeToSeconds_fmt_eval (h m s ms : Nat) (hh : h < 100) (hm : m < 100)
    (hs : s < 100) (hms : ms < 1000) :
    srtTimeToSeconds (fmtTimestamp h m s ms) =
      .ok (some ((h : ℚ) * 3600 + (m : ℚ) * 60 + (s : ℚ) + (ms : ℚ) / 1000)) := by
  have hsplit := jsSplit_colon_fmt h m s ms hh hm hs hms
  have hcomma : jsSplitChar ',' (twoDigits s ++ ',' :: threeDigits ms) =
      [twoDigits s, threeDigits ms] := by
    have e1 : jsSplitChar ',' (',' :: threeDigits ms) =
        [] :: [threeDigits ms] := by
      rw [jsSplitChar_sep_cons,
        jsSplitChar_no_sep ',' _ (threeDigits_ne ms hms ',' (Or.inr rfl))]
    have := jsSplitChar_append_no_sep ',' (twoDigits s)
      (twoDigits_ne s hs ',' (Or.inr rfl)) _ _ _ e1
    simpa using this
  rw [srtTimeToSeconds]
  simp only [hsplit, hcomma, List.get?, List.getD, Option.getD]
  rw [parseIntJS_twoDigits h hh, parseIntJS_twoDigits m hm, parseIntJS_twoDigits s hs,
    parseIntJS_threeDigits ms hms]
  simp only [jsOfInt, jsMulC, jsAdd, jsDivC, Option.map_some']
  norm_num

/--
Claim C5: for every valid timestamp string of the form HH:MM:SS,mmm,
`srtTimeToSeconds` returns the exact decimal-second equivalent
hours * 3600 + minutes * 60 + seconds + milliseconds / 1000.
-/
theorem srtTimeToSeconds_valid (h m s ms : Nat) (hh : h < 100) (hm : m < 100)
    (hs : s < 100) (hms : ms < 1000) :
    srtTimeToSeconds (fmtTimestamp h m s ms) =
      .ok (some ((h : ℚ) * 3600 + (m : ℚ) * 60 + (s : ℚ) + (ms : ℚ) / 1000)) :=
  srtTimeToSeconds_fmt_eval h m s ms hh hm hs hms

/-- Witness for C5 at the input 00:01:02,500 of the spec. -/
theorem srtTimeToSeconds_valid_app :
    srtTimeToSeconds (fmtTimestamp 0 1 2 500) = .ok (some ((125 : ℚ) / 2)) := by
  rw [srtTimeToSeconds_valid 0 1 2 500 (by norm_num) (by norm_num) (by norm_num)
    (by norm_num)]
  norm_num

/-- Field count of a JS split: one more than the separator count. -/
theorem jsSplitChar_length (sep : Char) (s : Str) :
    (jsSplitChar sep s).length = s.count sep + 1 := by
  induction s with
  | nil => simp [jsSplitChar]
  | cons c rest ih =>
    simp only [jsSplitChar]
    by_cases hc : c = sep
    · rw [if_pos hc]
      simp [List.count_cons, hc, ih]
    · rw [if_neg hc]
      cases hr : jsSplitChar sep rest with
      | nil => exact absurd hr (jsSplitChar_ne_nil sep rest)
      | cons f rs =>
        have : (f :: rs).length = rest.count sep + 1 := by rw [← hr, ih]
        simp only [List.length_cons] at this ⊢
        rw [List.count_cons]
        simp [hc, this]

/--
Claim C6 (amended): `srtTimeToSeconds` accepts only strings with at least two
colon separators; every input with fewer than two colons — including any
decimal-seconds numeric string — makes it throw a TypeError while reading an
undefined field (there is no MalformedTimestamp error anywhere), and every
input with at least two colons produces a JS number (possibly NaN).
-/
theorem srtTimeToSeconds_accepted_grammar (s : Str) :
    (s.count ':' ≤ 1 → srtTimeToSeconds s = .error ()) ∧
    (2 ≤ s.count ':' → ∃ v : JsNum, srtTimeToSeconds s = .ok v) := by
  constructor <;> intro h
  · rw [srtTimeToSeconds]
    have hnone : (jsSplitChar ':' s).get? 2 = none :=
      List.get?_eq_none.mpr (by rw [jsSplitChar_length]; omega)
    simp only [hnone]
  · rw [srtTimeToSeconds]
    have hlt : 2 < (jsSplitChar ':' s).length := by rw [jsSplitChar_length]; omega
    rw [List.get?_eq_get hlt]
    exact ⟨_, rfl⟩

/--
Counterexample for C6: the decimal-seconds numeric string 5 is claimed to be
accepted, but the code throws on it — `Except.error ()` models the TypeError
raised while reading the undefined third colon field — so it returns no
numeric value and raises no MalformedTimestamp error.
-/
theorem srtTimeToSeconds_decimal_rejected :
    srtTimeToSeconds ['5'] = .error () := by
  decide

/-- Witness for C6 (amended) at a colon-free input and a two-colon input. -/
theorem srtTimeToSeconds_accepted_grammar_app :
    srtTimeToSeconds ['a'] = .error () ∧
    ∃ v : JsNum, srtTimeToSeconds (fmtTimestamp 0 0 2 0) = .ok v :=
  ⟨(srtTimeToSeconds_accepted_grammar ['a']).1 (by decide),
   (srtTimeToSeconds_accepted_grammar (fmtTimestamp 0 0 2 0)).2 (by decide)⟩

end Rdtt

namespace Rdtt

/-- Case analysis for the lowercase map: either the character is fixed or it
is the first component of one of the 26 pairs. -/
theorem jsLowerChar_spec (c : Char) :
    jsLowerChar c = c ∨ ∃ p ∈ upperLowerPairs, c = p.1 ∧ jsLowerChar c = p.2 := by
  rcases hf : upperLowerPairs.find? (fun p => p.1 == c) with _ | p
  · left
    unfold jsLowerChar
    rw [hf]
    rfl
  · right
    have hb0 := List.find?_some hf
    have hb : (p.1 == c) = true := hb0
    refine ⟨p, List.mem_of_find?_eq_some hf, (eq_of_beq hb).symm, ?_⟩
    unfold jsLowerChar
    rw [hf]
    rfl

/-- Lowercasing a character twice is the same as lowercasing it once. -/
theorem jsLowerChar_idem (c : Char) : jsLowerChar (jsLowerChar c) = jsLowerChar c := by
  rcases jsLowerChar_spec c with h | ⟨p, hp, hc, hl⟩
  · simp only [h]
  · rw [hl]
    fin_cases hp <;> decide

/-- Lowercasing preserves whitespace-ness. -/
theorem isWs_jsLowerChar (c : Char) : isWsChar (jsLowerChar c) = isWsChar c := by
  rcases jsLowerChar_spec c with h | ⟨p, hp, hc, hl⟩
  · rw [h]
  · rw [hl, hc]
    fin_cases hp <;> decide

/-- Lowercasing preserves punctuation-ness. -/
theorem isPunct_jsLowerChar (c : Char) : isPunctChar (jsLowerChar c) = isPunctChar c := by
  rcases jsLowerChar_spec c with h | ⟨p, hp, hc, hl⟩
  · rw [h]
  · rw [hl, hc]
    fin_cases hp <;> decide

/-- Lowercasing creates no backslash. -/
theorem backslash_of_jsLowerChar (c : Char) (h : jsLowerChar c = '\\') : c = '\\' := by
  rcases jsLowerChar_spec c with h2 | ⟨p, hp, hc, hl⟩
  · rw [h2] at h
    exact h
  · rw [hl] at h
    subst hc
    fin_cases hp <;> exact absurd h (by decide)

/-- The head of a dropWhile result never satisfies the predicate. -/
theorem dropWhile_head_false {p : Char → Bool} :
    ∀ (l : Str) {c : Char}, (l.dropWhile p).head? = some c → p c = false := by
  intro l
  induction l with
  | nil => intro c h; simp at h
  | cons x xs ih =>
    intro c h
    rw [List.dropWhile_cons] at h
    split at h
    · exact ih h
    · rename_i hx
      have : x = c := by simpa using h
      subst this
      simpa using hx

/-- A list whose head fails the predicate is untouched by dropWhile. -/
theorem dropWhile_eq_self_of_head {p : Char → Bool} (l : Str)
    (h : ∀ c, l.head? = some c → p c = false) : l.dropWhile p = l := by
  cases l with
  | nil => rfl
  | cons x xs =>
    rw [List.dropWhile_cons, if_neg]
    simp [h x rfl]

/-- Dropping a leading run does not change a nonempty remainder at the tail end. -/
theorem getLast?_dropWhile_of_ne_nil {p : Char → Bool} (l : Str)
    (h : l.dropWhile p ≠ []) : (l.dropWhile p).getLast? = l.getLast? := by
  conv_rhs => rw [← List.takeWhile_append_dropWhile (p := p) (l := l)]
  rw [List.getLast?_append]
  cases hx : (l.dropWhile p).getLast? with
  | none => exact absurd (List.getLast?_eq_none_iff.mp hx) h
  | some c => rfl

/-- The first character of a trimmed string is not whitespace. -/
theorem trim_head_not_ws (s : Str) (c : Char) (h : (trim s).head? = some c) :
    isWsChar c = false := by
  unfold trim at h
  rw [List.head?_reverse] at h
  have hne : List.dropWhile isWsChar ((s.dropWhile isWsChar).reverse) ≠ [] := by
    intro he
    rw [he] at h
    simp at h
  rw [getLast?_dropWhile_of_ne_nil _ hne, List.getLast?_reverse] at h
  exact dropWhile_head_false s h

/-- The last character of a trimmed string is not whitespace. -/
theorem trim_getLast_not_ws (s : Str) (c : Char) (h : (trim s).getLast? = some c) :
    isWsChar c = false := by
  unfold trim at h
  rw [List.getLast?_reverse] at h
  exact dropWhile_head_false _ h

/-- Trimming a string with clean ends is the identity. -/
theorem trim_eq_self (s : Str) (hh : ∀ c, s.head? = some c → isWsChar c = false)
    (hl : ∀ c, s.getLast? = some c → isWsChar c = false) : trim s = s := by
  unfold trim
  rw [dropWhile_eq_self_of_head s hh,
    dropWhile_eq_self_of_head s.reverse
      (fun c hc => hl c (by rwa [List.head?_reverse] at hc)),
    List.reverse_reverse]

/-- A head of the dropLast is a head of the list. -/
theorem head?_dropLast (l : Str) (c : Char) (h : l.dropLast.head? = some c) :
    l.head? = some c := by
  match l with
  | [] => simp at h
  | [x] => simp at h
  | x :: y :: t => simpa using h

/-- Lowercasing twice over a string equals lowercasing once. -/
theorem asciiLower_idem (s : Str) : asciiLower (asciiLower s) = asciiLower s := by
  induction s with
  | nil => rfl
  | cons c cs ih =>
    simp only [asciiLower, List.map_cons] at ih ⊢
    rw [jsLowerChar_idem, ih]

/-- Unfolding equation of the single-punctuation strip at a known last char. -/
theorem stripOnePunctEnd_eq_of_getLast (s : Str) (c : Char) (h : s.getLast? = some c) :
    stripOnePunctEnd s = if isPunctChar c then s.dropLast else s := by
  unfold stripOnePunctEnd
  rw [h]

/-- Unfolding equation of the single-punctuation strip on the empty string. -/
theorem stripOnePunctEnd_eq_of_none (s : Str) (h : s.getLast? = none) :
    stripOnePunctEnd s = s := by
  unfold stripOnePunctEnd
  rw [h]

/-- Lowercasing commutes with stripping one trailing punctuation char. -/
theorem asciiLower_stripOne (x : Str) :
    asciiLower (stripOnePunctEnd x) = stripOnePunctEnd (asciiLower x) := by
  cases hx : x.getLast? with
  | none =>
    have : x = [] := List.getLast?_eq_none_iff.mp hx
    subst this
    rfl
  | some c =>
    have hm : (asciiLower x).getLast? = some (jsLowerChar c) := by
      rw [asciiLower, List.getLast?_map, hx]
      rfl
    rw [stripOnePunctEnd_eq_of_getLast x c hx,
      stripOnePunctEnd_eq_of_getLast (asciiLower x) (jsLowerChar c) hm]
    by_cases hp : isPunctChar c = true
    · rw [if_pos hp, if_pos (by rw [isPunct_jsLowerChar]; exact hp),
        asciiLower, asciiLower, List.map_dropLast]
    · rw [if_neg hp, if_neg (by rw [isPunct_jsLowerChar]; exact hp)]

/-- A normalized word is already lowercase. -/
theorem asciiLower_normalizeWord (w : Str) :
    asciiLower (normalizeWord w) = normalizeWord w := by
  unfold normalizeWord
  rw [asciiLower_stripOne, asciiLower_idem]

/-- The head of a lowered trimmed string is not whitespace. -/
theorem lowerTrim_head_not_ws (w : Str) (c : Char)
    (h : (asciiLower (trim w)).head? = some c) : isWsChar c = false := by
  rw [asciiLower, List.head?_map] at h
  cases ht : (trim w).head? with
  | none => rw [ht] at h; simp at h
  | some c0 =>
    rw [ht] at h
    have : jsLowerChar c0 = c := by simpa using h
    rw [← this, isWs_jsLowerChar]
    exact trim_head_not_ws w c0 ht

/-- The head of a normalized word is not whitespace. -/
theorem normalizeWord_head_not_ws (w : Str) (c : Char)
    (h : (normalizeWord w).head? = some c) : isWsChar c = false := by
  rw [normalizeWord] at h
  cases hgl : (asciiLower (trim w)).getLast? with
  | none =>
    rw [stripOnePunctEnd_eq_of_none _ hgl] at h
    exact lowerTrim_head_not_ws w c h
  | some d =>
    rw [stripOnePunctEnd_eq_of_getLast _ d hgl] at h
    by_cases hp : isPunctChar d = true
    · rw [if_pos hp] at h
      exact lowerTrim_head_not_ws w c (head?_dropLast _ c h)
    · rw [if_neg hp] at h
      exact lowerTrim_head_not_ws w c h

/--
Claim C4 (amended): `normalizeWord` is idempotent on every string whose
normalized form does not end in a punctuation or whitespace character; the
unrestricted idempotence claimed by the spec fails (see the counterexample on
the input a.. whose first normalization a. still ends in a punctuation
character that a second pass removes).
-/
theorem normalizeWord_idem_of_clean_end (w : Str)
    (h : ∀ c, (normalizeWord w).getLast? = some c →
      isPunctChar c = false ∧ isWsChar c = false) :
    normalizeWord (normalizeWord w) = normalizeWord w := by
  have htrim : trim (normalizeWord w) = normalizeWord w :=
    trim_eq_self _ (fun c hc => normalizeWord_head_not_ws w c hc)
      (fun c hc => (h c hc).2)
  have hstrip : stripOnePunctEnd (normalizeWord w) = normalizeWord w := by
    cases hgl : (normalizeWord w).getLast? with
    | none => exact stripOnePunctEnd_eq_of_none _ hgl
    | some c =>
      rw [stripOnePunctEnd_eq_of_getLast _ c hgl, if_neg]
      simp [(h c hgl).1]
  show stripOnePunctEnd (asciiLower (trim (normalizeWord w))) = normalizeWord w
  rw [htrim, asciiLower_normalizeWord, hstrip]

/--
Counterexample for C4: normalizeWord is not idempotent on the string a.. —
one application strips only a single trailing dot, leaving a., and a second
application strips again, giving a.
-/
theorem normalizeWord_not_idempotent :
    normalizeWord (normalizeWord ['a', '.', '.']) ≠ normalizeWord ['a', '.', '.'] := by
  decide

/-- Witness for C4 (amended) at the input Hi!. -/
theorem normalizeWord_idem_of_clean_end_app :
    normalizeWord (normalizeWord ['H', 'i', '!']) = normalizeWord ['H', 'i', '!'] := by
  refine normalizeWord_idem_of_clean_end ['H', 'i', '!'] ?_
  intro c hc
  have he : (normalizeWord ['H', 'i', '!']).getLast? = some 'i' := by decide
  rw [he] at hc
  injection hc with h2
  subst h2
  decide

end Rdtt

namespace Rdtt

/-- A value produced by getLast? is a member of the list. -/
theorem mem_of_getLast?_eq_some {α : Type} {l : List α} {a : α}
    (h : l.getLast? = some a) : a ∈ l := by
  cases l with
  | nil => simp at h
  | cons x xs =>
    rw [List.getLast?_eq_getLast (x :: xs) (by simp)] at h
    injection h with h2
    rw [← h2]
    exact List.getLast_mem _

/-- The line returned by the window pass belongs to the line list. -/
theorem firstWindowMatch_mem {ws : List Str} :
    ∀ {lines : List SrtLine} {l : SrtLine},
      firstWindowMatch ws lines = some l → l ∈ lines := by
  intro lines
  induction lines with
  | nil => intro l h; simp [firstWindowMatch] at h
  | cons x rest ih =>
    intro l h
    rw [firstWindowMatch] at h
    split at h
    · exact List.take_subset _ _ (mem_of_getLast?_eq_some h)
    · exact List.mem_cons_of_mem x (ih h)

/-- Unfolding of the hook aligner when the window pass matches. -/
theorem calculateHookEndFrame_window (hook : Str) (lines : List SrtLine)
    (l : SrtLine) (fps delay : ℚ) (h0 : ¬(hook = [] ∨ lines = []))
    (h1 : ¬hookWordsOf hook = [])
    (h2 : firstWindowMatch (hookWordsOf hook) lines = some l) :
    calculateHookEndFrame hook lines fps delay = hookFrameOf l fps delay := by
  rw [calculateHookEndFrame, if_neg h0, if_neg h1, h2]

/-- Unfolding of the hook aligner when only the last-word pass matches. -/
theorem calculateHookEndFrame_fallback (hook : Str) (lines : List SrtLine)
    (l : SrtLine) (fps delay : ℚ) (h0 : ¬(hook = [] ∨ lines = []))
    (h1 : ¬hookWordsOf hook = [])
    (h2 : firstWindowMatch (hookWordsOf hook) lines = none)
    (h3 : lines.reverse.find?
      (fun x => normalizeWord x.text == (hookWordsOf hook).getLastD []) = some l) :
    calculateHookEndFrame hook lines fps delay = hookFrameOf l fps delay := by
  rw [calculateHookEndFrame, if_neg h0, if_neg h1, h2, h3]

/-- Unfolding of the hook aligner when neither pass matches. -/
theorem calculateHookEndFrame_nomatch (hook : Str) (lines : List SrtLine)
    (fps delay : ℚ) (h0 : ¬(hook = [] ∨ lines = []))
    (h1 : ¬hookWordsOf hook = [])
    (h2 : firstWindowMatch (hookWordsOf hook) lines = none)
    (h3 : lines.reverse.find?
      (fun x => normalizeWord x.text == (hookWordsOf hook).getLastD []) = none) :
    calculateHookEndFrame hook lines fps delay = .ok (some 0) := by
  rw [calculateHookEndFrame, if_neg h0, if_neg h1, h2, h3]

/-- Convenience form of `srtTimeToSeconds_fmt_eval` with a precomputed value. -/
theorem srtParse_fmt (h m s ms : Nat) (hh : h < 100) (hm : m < 100) (hs : s < 100)
    (hms : ms < 1000) (v : ℚ) (hv : (h : ℚ) * 3600 + (m : ℚ) * 60 + (s : ℚ) + (ms : ℚ) / 1000 = v) :
    srtTimeToSeconds (fmtTimestamp h m s ms) = .ok (some v) := by
  rw [srtTimeToSeconds_fmt_eval h m s ms hh hm hs hms, hv]

/--
Claim C2: on hook text This is wild against the three entries This, is, wild
ending at 0.4, 0.6 and 1.0 seconds, the full-phrase pass matches the window
starting at the first entry and the result is floor((1.0 + delay) * fps) for
every fps and delay; at fps 30, delay 0.25 that is 37.
-/
theorem hookEndFrame_fullPhrase_scenario :
    (∀ fps delay : ℚ, calculateHookEndFrame hookThisIsWild scenarioLines fps delay =
      .ok (some ⌊((1 : ℚ) + delay) * fps⌋)) ∧
    calculateHookEndFrame hookThisIsWild scenarioLines 30 (1/4) = .ok (some 37) := by
  have hwin : firstWindowMatch (hookWordsOf hookThisIsWild) scenarioLines =
      some lineWild := by decide
  have hparse : srtTimeToSeconds lineWild.endTime = .ok (some 1) :=
    srtParse_fmt 0 0 1 0 (by norm_num) (by norm_num) (by norm_num) (by norm_num) 1
      (by norm_num)
  have key : ∀ fps delay : ℚ,
      calculateHookEndFrame hookThisIsWild scenarioLines fps delay =
        .ok (some ⌊((1 : ℚ) + delay) * fps⌋) := by
    intro fps delay
    rw [calculateHookEndFrame_window _ _ _ _ _ (by decide) (by decide) hwin,
      hookFrameOf, hparse]
    rfl
  refine ⟨key, ?_⟩
  rw [key 30 (1/4),
    show ⌊((1 : ℚ) + 1/4) * 30⌋ = 37 from by rw [Int.floor_eq_iff] <;> norm_num]

/--
Claim C3 (amended): when the full-phrase pass finds no match, the fallback
scans the entries from the last one towards the first; at the first entry
from the end — that is, the last entry in sequence order — whose normalized
text equals the last normalized hook word, it returns
floor((that entry end time + endDelaySeconds) * fps).  In particular, when
the last word occurs in exactly one entry the result derives from that entry
and, at the fps 30 and delay 0.25 used by the route, is not 0 for any
non-negative end time.
-/
theorem hookEndFrame_lastWord_fallback_from_end (hook : Str)
    (pre post : List SrtLine) (l : SrtLine) (fps delay t : ℚ)
    (hhook : hook ≠ [])
    (hw : hookWordsOf hook ≠ [])
    (hnowin : firstWindowMatch (hookWordsOf hook) (pre ++ l :: post) = none)
    (hmatch : normalizeWord l.text = (hookWordsOf hook).getLastD [])
    (hpost : ∀ x ∈ post, normalizeWord x.text ≠ (hookWordsOf hook).getLastD [])
    (ht : srtTimeToSeconds l.endTime = .ok (some t)) :
    calculateHookEndFrame hook (pre ++ l :: post) fps delay =
      .ok (some ⌊(t + delay) * fps⌋) ∧
    (fps = 30 → delay = 1/4 → 0 ≤ t → ⌊(t + delay) * fps⌋ ≠ 0) := by
  constructor
  · have hfind : (pre ++ l :: post).reverse.find?
        (fun x => normalizeWord x.text == (hookWordsOf hook).getLastD []) = some l := by
      rw [List.reverse_append, List.reverse_cons, List.find?_append, List.find?_append]
      have hnone : post.reverse.find?
          (fun x => normalizeWord x.text == (hookWordsOf hook).getLastD []) = none := by
        rw [List.find?_eq_none]
        intro x hx
        simpa using hpost x (List.mem_reverse.mp hx)
      rw [hnone]
      simp [List.find?, hmatch]
    rw [calculateHookEndFrame_fallback hook _ l fps delay
      (not_or.mpr ⟨hhook, by simp⟩) hw hnowin hfind, hookFrameOf, ht]
    rfl
  · intro h30 hq ht0
    subst h30
    subst hq
    have h7 : (7 : ℤ) ≤ ⌊(t + 1 / 4) * 30⌋ := by
      rw [Int.le_floor]
      push_cast
      nlinarith
    omega

/--
Counterexample for C3: for hook x b (whose full phrase never matches) against
entries b, c, b ending at 1.0, 2.0 and 3.0 seconds, the claimed left-to-right
scan would stop at the first entry and give floor((1.0 + 0.25) * 30) = 37,
but the code scans from the end and returns floor((3.0 + 0.25) * 30) = 97.
-/
theorem hookEndFrame_fallback_not_left_to_right :
    calculateHookEndFrame hookXB linesBCB 30 (1/4) = .ok (some 97) ∧
    calculateHookEndFrame hookXB linesBCB 30 (1/4) ≠ .ok (some 37) := by
  have hfind : linesBCB.reverse.find?
      (fun x => normalizeWord x.text == (hookWordsOf hookXB).getLastD []) =
        some lineB3 := by decide
  have h3 : srtTimeToSeconds lineB3.endTime = .ok (some 3) :=
    srtParse_fmt 0 0 3 0 (by norm_num) (by norm_num) (by norm_num) (by norm_num) 3
      (by norm_num)
  have heq : calculateHookEndFrame hookXB linesBCB 30 (1/4) = .ok (some 97) := by
    rw [calculateHookEndFrame_fallback hookXB linesBCB lineB3 30 (1/4)
      (by decide) (by decide) (by decide) hfind, hookFrameOf, h3]
    show Except.ok (some ⌊((3 : ℚ) + 1/4) * 30⌋) = .ok (some 97)
    rw [show ⌊((3 : ℚ) + 1/4) * 30⌋ = 97 from by rw [Int.floor_eq_iff] <;> norm_num]
  refine ⟨heq, ?_⟩
  rw [heq]
  intro hcontra
  injection hcontra with h1
  injection h1 with h2
  exact absurd h2 (by decide)

/-- Witness for C3 (amended): the last word b occurs exactly once, in the
final entry ending at 3.0 seconds, and the result is 97, not 0. -/
theorem hookEndFrame_lastWord_fallback_from_end_app :
    calculateHookEndFrame hookXB linesCB 30 (1/4) = .ok (some 97) ∧ (97 : ℤ) ≠ 0 := by
  have h := hookEndFrame_lastWord_fallback_from_end hookXB [lineC2] [] lineB3
    30 (1/4) 3 (by decide) (by decide) (by decide) (by decide)
    (by intro x hx; simp at hx)
    (srtParse_fmt 0 0 3 0 (by norm_num) (by norm_num) (by norm_num) (by norm_num) 3
      (by norm_num))
  refine ⟨?_, by norm_num⟩
  have h1 := h.1
  rw [show ⌊((3 : ℚ) + 1/4) * 30⌋ = 97 from by rw [Int.floor_eq_iff] <;> norm_num] at h1
  exact h1

/--
Claim C9: whenever every entry end time parses to a non-negative number of
seconds and fps and the delay are non-negative, `calculateHookEndFrame`
returns a non-negative integer — 0 or the floor of a non-negative value.
-/
theorem hookEndFrame_nonneg (hook : Str) (lines : List SrtLine) (fps delay : ℚ)
    (hl : ∀ l ∈ lines, ∃ q : ℚ, srtTimeToSeconds l.endTime = .ok (some q) ∧ 0 ≤ q)
    (hf : 0 ≤ fps) (hd : 0 ≤ delay) :
    ∃ z : ℤ, calculateHookEndFrame hook lines fps delay = .ok (some z) ∧ 0 ≤ z := by
  by_cases h0 : hook = [] ∨ lines = []
  · exact ⟨0, by rw [calculateHookEndFrame, if_pos h0], le_refl 0⟩
  by_cases h1 : hookWordsOf hook = []
  · exact ⟨0, by rw [calculateHookEndFrame, if_neg h0, if_pos h1], le_refl 0⟩
  cases hm : firstWindowMatch (hookWordsOf hook) lines with
  | some l =>
    obtain ⟨q, hq, hq0⟩ := hl l (firstWindowMatch_mem hm)
    refine ⟨⌊(q + delay) * fps⌋, ?_, ?_⟩
    · rw [calculateHookEndFrame_window hook lines l fps delay h0 h1 hm, hookFrameOf, hq]
      rfl
    · exact Int.floor_nonneg.mpr (mul_nonneg (add_nonneg hq0 hd) hf)
  | none =>
    cases hfind : lines.reverse.find?
        (fun x => normalizeWord x.text == (hookWordsOf hook).getLastD []) with
    | some l =>
      obtain ⟨q, hq, hq0⟩ :=
        hl l (List.mem_reverse.mp (List.mem_of_find?_eq_some hfind))
      refine ⟨⌊(q + delay) * fps⌋, ?_, ?_⟩
      · rw [calculateHookEndFrame_fallback hook lines l fps delay h0 h1 hm hfind,
          hookFrameOf, hq]
        rfl
      · exact Int.floor_nonneg.mpr (mul_nonneg (add_nonneg hq0 hd) hf)
    | none =>
      exact ⟨0,
        by rw [calculateHookEndFrame_nomatch hook lines fps delay h0 h1 hm hfind],
        le_refl 0⟩

/-- Witness for C9 on the scenario entries. -/
theorem hookEndFrame_nonneg_app :
    ∃ z : ℤ, calculateHookEndFrame hookThisIsWild scenarioLines 30 (1/4) =
      .ok (some z) ∧ 0 ≤ z := by
  refine hookEndFrame_nonneg hookThisIsWild scenarioLines 30 (1/4) ?_ (by norm_num)
    (by norm_num)
  intro l hl
  simp only [scenarioLines, List.mem_cons, List.not_mem_nil, or_false] at hl
  rcases hl with rfl | rfl | rfl
  · exact ⟨2/5, srtParse_fmt 0 0 0 400 (by norm_num) (by norm_num) (by norm_num)
      (by norm_num) (2/5) (by norm_num), by norm_num⟩
  · exact ⟨3/5, srtParse_fmt 0 0 0 600 (by norm_num) (by norm_num) (by norm_num)
      (by norm_num) (3/5) (by norm_num), by norm_num⟩
  · exact ⟨1, srtParse_fmt 0 0 1 0 (by norm_num) (by norm_num) (by norm_num)
      (by norm_num) 1 (by norm_num), by norm_num⟩

end Rdtt

namespace Rdtt

/-- A backslash-free string is never split by the backslash-s separator. -/
theorem bsGo_no_backslash : ∀ (s cur : Str), '\\' ∉ s →
    bsGo false cur s = [cur.reverse ++ s] := by
  intro s
  induction s with
  | nil => intro cur h; simp [bsGo]
  | cons c rest ih =>
    intro cur h
    have hc : c ≠ '\\' := fun he => h (he ▸ List.mem_cons_self c rest)
    rw [bsGo, if_neg (by simp), if_neg (by simp [hc]),
      ih (c :: cur) (fun hx => h (List.mem_cons_of_mem _ hx))]
    simp

/-- Splitting a backslash-free string on the backslash-s regex returns the
whole string as the single field. -/
theorem splitBsS_no_backslash (s : Str) (h : '\\' ∉ s) : splitBsS s = [s] := by
  rw [splitBsS, bsGo_no_backslash s [] h]
  rfl

/-- Trimming removes characters, never adds them. -/
theorem mem_trim {c : Char} {s : Str} (h : c ∈ trim s) : c ∈ s := by
  unfold trim at h
  rw [List.mem_reverse] at h
  have h2 := (List.dropWhile_sublist (l := (s.dropWhile isWsChar).reverse) isWsChar).subset h
  rw [List.mem_reverse] at h2
  exact (List.dropWhile_sublist isWsChar).subset h2

/-- Stripping trailing punctuation removes characters, never adds them. -/
theorem mem_stripPunctRunEnd {c : Char} {s : Str} (h : c ∈ stripPunctRunEnd s) :
    c ∈ s := by
  unfold stripPunctRunEnd at h
  rw [List.mem_reverse] at h
  have h2 := (List.dropWhile_sublist (l := s.reverse) isPunctChar).subset h
  rwa [List.mem_reverse] at h2

/-- Cleaning the hook text introduces no backslash. -/
theorem backslash_not_in_cvCleanHook (hook : Str) (h : '\\' ∉ hook) :
    '\\' ∉ cvCleanHook hook := by
  intro hc
  unfold cvCleanHook at hc
  have h2 : '\\' ∈ asciiLower hook := mem_trim (mem_stripPunctRunEnd hc)
  rw [asciiLower, List.mem_map] at h2
  obtain ⟨c0, hc0, he⟩ := h2
  exact h ((backslash_of_jsLowerChar c0 he) ▸ hc0)

/-- Unescaping consumes an escaped pair from the front. -/
theorem unescape_esc (d : Char) (rest : Str) :
    unescapeRegexLiteral ('\\' :: d :: rest) = d :: unescapeRegexLiteral rest := by
  rw [unescapeRegexLiteral, if_pos rfl]

/-- Unescaping keeps an unescaped literal character at the front. -/
theorem unescape_lit (c : Char) (h : c ≠ '\\') (s : Str) :
    unescapeRegexLiteral (c :: s) = c :: unescapeRegexLiteral s := by
  cases s with
  | nil => rfl
  | cons d rest => rw [unescapeRegexLiteral, if_neg h]

/-- Unescaping distributes over a backslash-free prefix. -/
theorem unescape_append_no_backslash (w t : Str) (h : '\\' ∉ w) :
    unescapeRegexLiteral (w ++ t) = w ++ unescapeRegexLiteral t := by
  induction w with
  | nil => rfl
  | cons c w ih =>
    have hc : c ≠ '\\' := fun he => h (List.mem_cons.mpr (Or.inl he.symm))
    have hw : '\\' ∉ w := fun hx => h (List.mem_cons.mpr (Or.inr hx))
    rw [List.cons_append, unescape_lit c hc (w ++ t), ih hw, List.cons_append]

/-- Over a backslash-free word the entire fallback regex source unescapes to
the literal pattern: backslash and b on each side of the word. -/
theorem unescape_framed (w : Str) (h : '\\' ∉ w) :
    unescapeRegexLiteral (bsWordRegexSource w) = bsWordPattern w := by
  rw [bsWordRegexSource, unescape_esc,
    unescape_lit 'b' (by decide) (w ++ ['\\', '\\', 'b']),
    unescape_append_no_backslash w _ h,
    show unescapeRegexLiteral ['\\', '\\', 'b'] = ['\\', 'b'] from by
      rw [unescape_esc]
      rfl,
    bsWordPattern]

/-- A word of regex-literal characters puts no bar into the regex source, so
the regex has a single alternative. -/
theorem regexSource_no_bar (w : Str) (h : ∀ c ∈ w, regexLiteralChar c = true) :
    ∀ c ∈ bsWordRegexSource w, c ≠ '|' := by
  intro c hc he
  subst he
  rw [bsWordRegexSource] at hc
  rcases List.mem_cons.mp hc with h1 | hc
  · exact absurd h1 (by decide)
  rcases List.mem_cons.mp hc with h1 | hc
  · exact absurd h1 (by decide)
  rcases List.mem_cons.mp hc with h1 | hc
  · exact absurd h1 (by decide)
  rcases List.mem_append.mp hc with h1 | h1
  · exact absurd (h _ h1) (by decide)
  · exact absurd h1 (by decide)

/-- A word of regex-literal characters is backslash-free. -/
theorem no_backslash_of_literal (w : Str) (h : ∀ c ∈ w, regexLiteralChar c = true) :
    '\\' ∉ w :=
  fun hx => absurd (h _ hx) (by decide)

/-- For a word of regex-literal characters the fallback regex test is exactly
substring containment of the literal backslash-b framed pattern. -/
theorem wordRegexTest_literal (w line : Str)
    (h : ∀ c ∈ w, regexLiteralChar c = true) :
    wordRegexTest w line = decide (bsWordPattern w <:+: line) := by
  rw [wordRegexTest, jsSplitChar_no_sep '|' _ (regexSource_no_bar w h)]
  simp only [List.any_cons, List.any_nil, Bool.or_false]
  rw [unescape_framed w (no_backslash_of_literal w h)]

/-- Over a backslash-free line the fallback regex of a regex-literal word
never matches: its single alternative demands a literal backslash. -/
theorem wordRegexTest_false (w line : Str)
    (h : ∀ c ∈ w, regexLiteralChar c = true) (hline : '\\' ∉ line) :
    wordRegexTest w line = false := by
  rw [wordRegexTest_literal w line h, decide_eq_false_iff_not]
  intro hinf
  exact hline (hinf.subset (by rw [bsWordPattern]; exact List.mem_cons_self _ _))

/--
Claim C8 (amended): in the `create-video.ts` hook aligner, the word split is
on the literal backslash-s sequence, so a backslash-free hook is never split
and the last word is the entire cleaned hook text; and when that last word
consists only of regex-literal characters (no backslash, anchor, dot,
quantifier, bracket or bar), the fallback regex source demands a literal
backslash, so over backslash-free cleaned subtitle lines the function can
return a non-zero frame only when some line passed the full-phrase substring
test.  The regex-literal restriction is necessary: the word is spliced into
the pattern unsanitized, and a bar inside it creates alternation, which the
alternation counterexample below exploits.
-/
theorem hookEndFrameCV_backslash_behaviour (hook : Str) (lines : List SrtLine)
    (fps delay : ℚ) :
    (('\\' ∉ hook) → splitBsS (cvCleanHook hook) = [cvCleanHook hook]) ∧
    ((∀ c ∈ (splitBsS (cvCleanHook hook)).getLastD [], regexLiteralChar c = true) →
      (∀ l ∈ lines, '\\' ∉ cvCleanLine l.text) →
      ∀ z : ℤ, calculateHookEndFrameCV hook lines fps delay = .ok (some z) →
        z ≠ 0 → ∃ l ∈ lines, cvCleanHook hook <:+: cvCleanLine l.text) := by
  constructor
  · intro h
    exact splitBsS_no_backslash _ (backslash_not_in_cvCleanHook hook h)
  · intro hw hbs z hz hnz
    cases hph : lines.find?
        (fun l => decide (cvCleanHook hook <:+: cvCleanLine l.text)) with
    | some l =>
      have hp0 := List.find?_some hph
      have hp : decide (cvCleanHook hook <:+: cvCleanLine l.text) = true := hp0
      exact ⟨l, List.mem_of_find?_eq_some hph, of_decide_eq_true hp⟩
    | none =>
      exfalso
      have hfall : lines.find? (fun l =>
          wordRegexTest ((splitBsS (cvCleanHook hook)).getLastD [])
            (cvCleanLine l.text)) = none := by
        rw [List.find?_eq_none]
        intro x hx hpred
        have hp : wordRegexTest ((splitBsS (cvCleanHook hook)).getLastD [])
            (cvCleanLine x.text) = true := hpred
        rw [wordRegexTest_false _ _ hw (hbs x hx)] at hp
        exact Bool.false_ne_true hp
      have hzero : calculateHookEndFrameCV hook lines fps delay = .ok (some 0) := by
        rw [calculateHookEndFrameCV]
        by_cases h0 : hook = [] ∨ trim hook = [] ∨ lines = []
        · rw [if_pos h0]
        rw [if_neg h0]
        by_cases h1 : splitBsS (cvCleanHook hook) = []
        · rw [if_pos h1]
        rw [if_neg h1,
          show cvPhaseOne hook lines fps = .ok (some 0) from by rw [cvPhaseOne, hph]]
        show (match cvPhaseTwo hook lines fps (some 0) with
          | .error e => Except.error e
          | .ok m2 => Except.ok (cvFinish delay fps m2)) = Except.ok (some 0)
        have hfin : (Except.ok (cvFinish delay fps (some 0)) :
            Except Unit (Option ℤ)) = Except.ok (some 0) := by
          show Except.ok (if (0 : ℤ) < 0 then some (0 + ⌊delay * fps⌋) else some 0) = _
          rw [if_neg (lt_irrefl 0)]
        by_cases hlw : (splitBsS (cvCleanHook hook)).getLastD [] = []
        · rw [show cvPhaseTwo hook lines fps (some 0) = .ok (some 0) from by
            rw [cvPhaseTwo, if_pos rfl, if_pos hlw]]
          exact hfin
        · rw [show cvPhaseTwo hook lines fps (some 0) = .ok (some 0) from by
            rw [cvPhaseTwo, if_pos rfl, if_neg hlw, hfall]]
          exact hfin
      rw [hzero] at hz
      injection hz with h1
      injection h1 with h2
      exact hnz h2.symm

/-- The fallback regex is not a literal-text match: the hook `x|y|z` is
backslash-free and its cleaned text is no substring of the cleaned line
`hey`, yet the unsanitized splice builds the regex source backslash backslash
b x bar y bar z backslash backslash b, whose bar-free alternative `y` matches
`hey`; the function returns frame 37, not 0. -/
theorem hookEndFrameCV_pipe_alternation :
    ('\\' ∉ cvCleanLine lineHey.text) ∧
    ¬(cvCleanHook hookPipe <:+: cvCleanLine lineHey.text) ∧
    calculateHookEndFrameCV hookPipe [lineHey] 30 (1/4) = .ok (some 37) := by
  refine ⟨by decide, by decide, ?_⟩
  have hparse : srtTimeToSeconds lineHey.endTime = .ok (some 1) :=
    srtParse_fmt 0 0 1 0 (by norm_num) (by norm_num) (by norm_num) (by norm_num) 1
      (by norm_num)
  have hph : ([lineHey]).find?
      (fun l => decide (cvCleanHook hookPipe <:+: cvCleanLine l.text)) = none := by
    decide
  have hp1 : cvPhaseOne hookPipe [lineHey] 30 = .ok (some 0) := by
    rw [cvPhaseOne, hph]
  have hfind2 : ([lineHey]).find? (fun l =>
      wordRegexTest ((splitBsS (cvCleanHook hookPipe)).getLastD [])
        (cvCleanLine l.text)) = some lineHey := by decide
  have hp2 : cvPhaseTwo hookPipe [lineHey] 30 (some 0) = .ok (some 30) := by
    rw [cvPhaseTwo, if_pos rfl, if_neg (by decide), hfind2]
    show (match srtTimeToSeconds lineHey.endTime with
      | .error e => Except.error e
      | .ok t => Except.ok (t.map (fun q => ⌊q * 30⌋))) = Except.ok (some 30)
    rw [hparse]
    show Except.ok (some ⌊(1 : ℚ) * 30⌋) = _
    rw [show ⌊(1 : ℚ) * 30⌋ = 30 from by rw [Int.floor_eq_iff] <;> norm_num]
  have hfin : cvFinish (1/4 : ℚ) 30 (some 30) = some 37 := by
    show (if (0 : ℤ) < 30 then some (30 + ⌊(1/4 : ℚ) * 30⌋) else some 0) = some 37
    rw [if_pos (by norm_num),
      show ⌊(1/4 : ℚ) * 30⌋ = 7 from by rw [Int.floor_eq_iff] <;> norm_num]
    norm_num
  rw [calculateHookEndFrameCV, if_neg (by decide), if_neg (by decide), hp1]
  show (match cvPhaseTwo hookPipe [lineHey] 30 (some 0) with
    | .error e => Except.error e
    | .ok m2 => Except.ok (cvFinish (1/4) 30 m2)) = Except.ok (some 37)
  rw [hp2]
  show Except.ok (cvFinish (1/4 : ℚ) 30 (some 30)) = Except.ok (some 37)
  rw [hfin]

/-- Witness for C8: a backslash-free, regex-literal hook and line where the
full-phrase substring pass is what fires. -/
theorem hookEndFrameCV_backslash_behaviour_app :
    splitBsS (cvCleanHook hookHi) = [cvCleanHook hookHi] ∧
    ∃ l ∈ [lineHi], cvCleanHook hookHi <:+: cvCleanLine l.text := by
  have h := hookEndFrameCV_backslash_behaviour hookHi [lineHi] 30 (1/4)
  refine ⟨h.1 (by decide), ?_⟩
  have hparse : srtTimeToSeconds lineHi.endTime = .ok (some 1) :=
    srtParse_fmt 0 0 1 0 (by norm_num) (by norm_num) (by norm_num) (by norm_num) 1
      (by norm_num)
  have hph : [lineHi].find?
      (fun l => decide (cvCleanHook hookHi <:+: cvCleanLine l.text)) =
        some lineHi := by decide
  have hp1 : cvPhaseOne hookHi [lineHi] 30 = .ok (some 30) := by
    rw [cvPhaseOne, hph]
    show (match srtTimeToSeconds lineHi.endTime with
      | .error e => Except.error e
      | .ok t => Except.ok (t.map (fun q => ⌊q * 30⌋))) = Except.ok (some 30)
    rw [hparse]
    show Except.ok (some ⌊(1 : ℚ) * 30⌋) = _
    rw [show ⌊(1 : ℚ) * 30⌋ = 30 from by rw [Int.floor_eq_iff] <;> norm_num]
  have hcalc : calculateHookEndFrameCV hookHi [lineHi] 30 (1/4) = .ok (some 37) := by
    rw [calculateHookEndFrameCV, if_neg (by decide), if_neg (by decide), hp1]
    show (match cvPhaseTwo hookHi [lineHi] 30 (some 30) with
      | .error e => Except.error e
      | .ok m2 => Except.ok (cvFinish (1/4) 30 m2)) = _
    rw [show cvPhaseTwo hookHi [lineHi] 30 (some 30) = .ok (some 30) from by
      rw [cvPhaseTwo, if_neg (by decide)]]
    show Except.ok (if (30 : ℤ) < 30 ∨ 0 < (30 : ℤ) then
      if (0 : ℤ) < 30 then some (30 + ⌊(1/4 : ℚ) * 30⌋) else some 0 else some 0) = _
    rw [if_pos (Or.inr (by norm_num)), if_pos (by norm_num),
      show ⌊(1/4 : ℚ) * 30⌋ = 7 from by rw [Int.floor_eq_iff] <;> norm_num]
    norm_num
  exact h.2 (by decide) (by decide) 37 hcalc (by decide)

end Rdtt

namespace Rdtt

/--
Claim C7: the handler decides the total video duration by priority — the
probed audio duration when it is positive, else the subtitle-derived duration
when positive, else a 400 response (modelled by `.ok none`); in particular a
request whose audio probe yields 0 and which supplies no subtitle file gets
the 400.
-/
theorem durationDecision_priority :
    (∀ (a : ℚ) (f : Option (List SrtLine)) (v : JsNum), 0 < a →
      handlerSrtDuration f = .ok v → durationDecision a f = .ok (some a)) ∧
    (∀ (a : ℚ) (f : Option (List SrtLine)) (q : ℚ), a ≤ 0 →
      handlerSrtDuration f = .ok (some q) → 0 < q →
      durationDecision a f = .ok (some q)) ∧
    (∀ (a : ℚ) (f : Option (List SrtLine)) (q : ℚ), a ≤ 0 →
      handlerSrtDuration f = .ok (some q) → q ≤ 0 →
      durationDecision a f = .ok none) ∧
    durationDecision 0 none = .ok none := by
  refine ⟨?_, ?_, ?_, ?_⟩
  · intro a f v ha hf
    rw [durationDecision, hf]
    simp only [if_pos ha]
    rw [if_neg (not_le.mpr ha)]
  · intro a f q ha hf hq
    rw [durationDecision, hf]
    simp only [if_neg (not_lt.mpr ha), if_pos hq]
    rw [if_neg (not_le.mpr hq)]
  · intro a f q ha hf hq
    rw [durationDecision, hf]
    simp only [if_neg (not_lt.mpr ha), if_neg (not_lt.mpr hq)]
    rw [if_pos (le_refl 0)]
  · rw [durationDecision]
    show (if (0 : ℚ) < 0 then Except.ok (some (0 : ℚ))
      else Except.ok none : Except Unit (Option ℚ)) = Except.ok none
    rw [if_neg (lt_irrefl 0)]

/-- Witness for C7 at concrete audio and subtitle durations. -/
theorem durationDecision_priority_app :
    durationDecision 5 none = .ok (some 5) ∧
    durationDecision 0 (some scenarioLines) = .ok (some 1) ∧
    durationDecision 0 none = .ok none := by
  have h := durationDecision_priority
  refine ⟨h.1 5 none (some 0) (by norm_num) rfl, ?_, h.2.2.2⟩
  refine h.2.1 0 (some scenarioLines) 1 (by norm_num) ?_ (by norm_num)
  show (if lineWild.endTime = [] then Except.ok (some 0)
    else srtTimeToSeconds lineWild.endTime) = Except.ok (some 1)
  rw [if_neg (by decide)]
  exact srtParse_fmt 0 0 1 0 (by norm_num) (by norm_num) (by norm_num) (by norm_num) 1
    (by norm_num)

/--
Claim C1 (amended): the background selector never produces duration-carrying
segments: for every listing outcome it returns either null or exactly one
locator of the form s3://bucket/key, and when the catalog listing for the
style is empty it returns null (the route then falls back to a background
colour instead of synthesising a placeholder segment); no exact-sum duration
invariant exists in the code.
-/
theorem backgroundSelector_locator_shape (bucket pfx : Str)
    (listing : Except Unit (Option (List S3Object))) (rand : ℚ) :
    (getRandomBackgroundVideoS3 bucket pfx listing rand = none ∨
      ∃ k : Str, getRandomBackgroundVideoS3 bucket pfx listing rand =
        some (s3Url bucket k)) ∧
    getRandomBackgroundVideoS3 bucket pfx (.ok (some [])) rand = none := by
  constructor
  · rcases listing with e | o
    · exact Or.inl rfl
    rcases o with _ | contents
    · exact Or.inl rfl
    have heq : getRandomBackgroundVideoS3 bucket pfx (.ok (some contents)) rand =
        (if contents = [] then none
         else if contents.filter keyTruthyNotDir = [] then none
         else match ((contents.filter keyTruthyNotDir).get?
             (⌊rand * ((contents.filter keyTruthyNotDir).length : ℚ)⌋).toNat).bind
             (fun x => x.Key) with
           | none => none
           | some k => if k = [] then none else some (s3Url bucket k)) := rfl
    rw [heq]
    by_cases hc : contents = []
    · rw [if_pos hc]
      exact Or.inl rfl
    rw [if_neg hc]
    by_cases hv : contents.filter keyTruthyNotDir = []
    · rw [if_pos hv]
      exact Or.inl rfl
    rw [if_neg hv]
    cases hk : ((contents.filter keyTruthyNotDir).get?
        (⌊rand * ((contents.filter keyTruthyNotDir).length : ℚ)⌋).toNat).bind
        (fun x => x.Key) with
    | none => exact Or.inl rfl
    | some k =>
      by_cases hk0 : k = []
      · subst hk0
        exact Or.inl rfl
      · refine Or.inr ⟨k, ?_⟩
        show (if k = [] then (none : Option Str) else some (s3Url bucket k)) =
          some (s3Url bucket k)
        rw [if_neg hk0]
  · rfl

/--
Counterexample for C1: on an empty catalog listing the selector returns null
— it synthesises no placeholder segment (and no output sized to any target
duration); the orchestrator then proceeds with a background colour.
-/
theorem backgroundSelector_empty_catalog_none :
    getRandomBackgroundVideoS3 bucketC pfxC (.ok (some [])) 0 = none := by
  rfl

/--
Claim C10 (amended): `getRandomBackgroundVideoS3` never propagates an
exception; it returns null on a listing error, a missing or empty contents
list, and whenever every listed object has a missing key, an empty key, or a
key ending in a slash; in every remaining case it returns s3://bucket/key for
some listed nonempty key that does not end in a slash.
-/
theorem backgroundSelector_null_cases (bucket pfx : Str)
    (listing : Except Unit (Option (List S3Object))) (rand : ℚ)
    (h0 : 0 ≤ rand) (h1 : rand < 1) :
    (listing = .error () → getRandomBackgroundVideoS3 bucket pfx listing rand = none) ∧
    (listing = .ok none → getRandomBackgroundVideoS3 bucket pfx listing rand = none) ∧
    (∀ contents, listing = .ok (some contents) →
      (contents.filter keyTruthyNotDir = [] →
        getRandomBackgroundVideoS3 bucket pfx listing rand = none) ∧
      (contents.filter keyTruthyNotDir ≠ [] →
        ∃ o ∈ contents, ∃ k : Str, o.Key = some k ∧ k ≠ [] ∧
          endsWithSlash k = false ∧
          getRandomBackgroundVideoS3 bucket pfx listing rand =
            some (s3Url bucket k))) := by
  refine ⟨?_, ?_, ?_⟩
  · intro he
    rw [he, getRandomBackgroundVideoS3]
  · intro he
    rw [he, getRandomBackgroundVideoS3]
  · intro contents he
    subst he
    constructor
    · intro hv
      rw [getRandomBackgroundVideoS3]
      by_cases hc : contents = []
      · rw [if_pos hc]
      · rw [if_neg hc, if_pos hv]
    · intro hv
      have hlen : 0 < (contents.filter keyTruthyNotDir).length :=
        List.length_pos.mpr hv
      set vf := contents.filter keyTruthyNotDir with hvf
      have hidx0 : 0 ≤ ⌊rand * (vf.length : ℚ)⌋ :=
        Int.floor_nonneg.mpr (mul_nonneg h0 (by positivity))
      have hidxlt : ⌊rand * (vf.length : ℚ)⌋ < (vf.length : ℤ) := by
        rw [Int.floor_lt]
        push_cast
        have : rand * (vf.length : ℚ) < 1 * (vf.length : ℚ) := by
          apply mul_lt_mul_of_pos_right h1
          exact_mod_cast hlen
        simpa using this
      have hnat : (⌊rand * (vf.length : ℚ)⌋).toNat < vf.length :=
        (Int.toNat_lt hidx0).mpr hidxlt
      obtain ⟨o, ho⟩ : ∃ o, vf.get? (⌊rand * (vf.length : ℚ)⌋).toNat = some o :=
        ⟨_, List.get?_eq_get hnat⟩
      have hof : o ∈ vf := by
        obtain ⟨hlt, hget⟩ := List.get?_eq_some.mp ho
        rw [← hget]
        exact List.get_mem vf _ hlt
      have hmemc : o ∈ contents := (List.mem_filter.mp hof).1
      have hpred : keyTruthyNotDir o = true := (List.mem_filter.mp hof).2
      cases hKey : o.Key with
      | none =>
        rw [keyTruthyNotDir, hKey] at hpred
        exact absurd hpred (by simp)
      | some k =>
        rw [keyTruthyNotDir, hKey] at hpred
        have hk2 : k ≠ [] ∧ endsWithSlash k = false := by
          simp only [Bool.and_eq_true, decide_eq_true_eq, Bool.not_eq_true',
            ne_eq] at hpred
          exact ⟨hpred.1, hpred.2⟩
        have hcne : contents ≠ [] := by
          intro hc
          apply hv
          rw [hvf, hc]
          rfl
        refine ⟨o, hmemc, k, hKey, hk2.1, hk2.2, ?_⟩
        have hbind : (vf.get? (⌊rand * (vf.length : ℚ)⌋).toNat).bind
            (fun x => x.Key) = some k := by
          rw [ho]
          exact hKey
        show (if contents = [] then (none : Option Str)
          else if vf = [] then none
          else match (vf.get? (⌊rand * (vf.length : ℚ)⌋).toNat).bind
              (fun x => x.Key) with
            | none => none
            | some k => if k = [] then none
              else some (s3Url bucket k)) = some (s3Url bucket k)
        rw [if_neg hcne, if_neg hv, hbind]
        show (if k = [] then none else some (s3Url bucket k)) = some (s3Url bucket k)
        rw [if_neg hk2.1]

/-- Counterexample for C10: a listing whose only object has the empty string
as its key is none of the three null cases the claim lists (its key does not
end in a slash), yet the selector filters it out as falsy and returns null
instead of a locator. -/
theorem backgroundSelector_empty_key_null :
    (∃ o ∈ [(⟨some []⟩ : S3Object)], ∃ k : Str, o.Key = some k ∧
      endsWithSlash k = false) ∧
    getRandomBackgroundVideoS3 bucketC pfxC (.ok (some [⟨some []⟩])) 0 = none := by
  constructor
  · exact ⟨⟨some []⟩, List.mem_cons_self _ _, [], rfl, rfl⟩
  · rfl

/-- Witness for C10 (amended) on a one-element listing with a good key. -/
theorem backgroundSelector_null_cases_app :
    ∃ o ∈ [(⟨some keyGood⟩ : S3Object)], ∃ k : Str, o.Key = some k ∧ k ≠ [] ∧
      endsWithSlash k = false ∧
      getRandomBackgroundVideoS3 bucketC pfxC (.ok (some [⟨some keyGood⟩])) (1/2) =
        some (s3Url bucketC k) := by
  have h := backgroundSelector_null_cases bucketC pfxC
    (.ok (some [⟨some keyGood⟩])) (1/2) (by norm_num) (by norm_num)
  exact (h.2.2 [⟨some keyGood⟩] rfl).2 (by decide)

end Rdtt
